import Mathlib

/-!
Verification of the in-process runtime services of the RFP automation backend:
the TTL/LRU memory cache (src/cache.py) and the background task orchestrator
(src/tasks.py).  Python dictionaries are embedded as insertion-ordered
association lists (Python 3.7+ dicts preserve insertion order, and overwriting
a key keeps its position); `time.time()` / `datetime.utcnow()` timestamps are
embedded as natural-number clocks passed explicitly to each operation.
-/

namespace RfpAutomation

/-! ## Python dict model: insertion-ordered association lists -/

variable {K : Type} {V : Type} {W : Type} [DecidableEq K]

/-- Lookup `d[k]` / `d.get(k)`: value of the first (unique) binding of `k`. -/
def dictGet : List (K × V) → K → Option V
  | [], _ => none
  | (k', v') :: rest, k => if k' = k then some v' else dictGet rest k

/-- Assignment `d[k] = v`: overwrite in place if the key is present (keeping
its position in iteration order), otherwise append at the end. -/
def dictSet : List (K × V) → K → V → List (K × V)
  | [], k, v => [(k, v)]
  | (k', v') :: rest, k, v =>
    if k' = k then (k, v) :: rest else (k', v') :: dictSet rest k v

/-- Deletion `del d[k]`: remove the (unique) binding of `k`. -/
def dictDel : List (K × V) → K → List (K × V)
  | [], _ => []
  | (k', v') :: rest, k => if k' = k then rest else (k', v') :: dictDel rest k

theorem dictGet_dictSet_self (l : List (K × V)) (k : K) (v : V) :
    dictGet (dictSet l k v) k = some v := by
  induction l with
  | nil => simp [dictGet, dictSet]
  | cons p rest ih =>
    by_cases h : p.1 = k
    · simp [dictSet, dictGet, h]
    · simp [dictSet, dictGet, h, ih]

theorem dictGet_dictSet_ne (l : List (K × V)) (k k' : K) (v : V) (h : k' ≠ k) :
    dictGet (dictSet l k v) k' = dictGet l k' := by
  have hk : k ≠ k' := Ne.symm h
  induction l with
  | nil => simp [dictGet, dictSet, hk]
  | cons p rest ih =>
    by_cases hp : p.1 = k
    · simp [dictSet, dictGet, hp, hk]
    · by_cases hp' : p.1 = k'
      · simp [dictSet, dictGet, hp, hp', h, hk]
      · simp [dictSet, dictGet, hp, hp', ih]

theorem dictSet_length (l : List (K × V)) (k : K) (v : V) :
    (dictSet l k v).length =
      if (dictGet l k).isSome then l.length else l.length + 1 := by
  induction l with
  | nil => simp [dictGet, dictSet]
  | cons p rest ih =>
    by_cases h : p.1 = k
    · simp [dictSet, dictGet, h]
    · by_cases hrest : (dictGet rest k).isSome <;>
        simp [dictSet, dictGet, h, hrest, ih]

theorem dictDel_length (l : List (K × V)) (k : K) (h : (dictGet l k).isSome) :
    (dictDel l k).length + 1 = l.length := by
  induction l with
  | nil => simp [dictGet] at h
  | cons p rest ih =>
    by_cases hp : p.1 = k
    · simp [dictDel, hp]
    · have := ih (by simpa [dictGet, hp] using h)
      simp [dictDel, hp, this]

theorem dictDel_length_le (l : List (K × V)) (k : K) :
    (dictDel l k).length ≤ l.length := by
  induction l with
  | nil => simp [dictDel]
  | cons p rest ih =>
    by_cases hp : p.1 = k
    · simp [dictDel, hp]
    · simp only [dictDel, hp, if_false, List.length_cons]
      omega

theorem dictGet_isSome_of_mem (l : List (K × V)) (k : K) (v : V)
    (h : (k, v) ∈ l) : (dictGet l k).isSome := by
  induction l with
  | nil => simp at h
  | cons p rest ih =>
    by_cases hp : p.1 = k
    · simp [dictGet, hp]
    · rcases List.mem_cons.1 h with h' | h'
      · exact absurd (congrArg Prod.fst h'.symm) hp
      · simpa [dictGet, hp] using ih h'

/-! ## Cache entries (class CacheEntry, src/cache.py) -/

/-- CacheEntry.__init__: stores the value with a fresh creation timestamp;
`last_accessed` starts equal to `created_at` and `access_count` at 0. -/
structure CacheEntry (V : Type) where
  value : V
  created_at : Nat
  ttl_seconds : Nat
  access_count : Nat
  last_accessed : Nat
deriving DecidableEq

/-- CacheEntry constructor as called by MemoryCache.set: `CacheEntry(value, ttl)`. -/
def CacheEntry.make (value : V) (ttl_seconds : Nat) (now : Nat) : CacheEntry V :=
  { value := value, created_at := now, ttl_seconds := ttl_seconds,
    access_count := 0, last_accessed := now }

/-- CacheEntry.is_expired: `time.time() - self.created_at > self.ttl_seconds`. -/
def CacheEntry.is_expired (e : CacheEntry V) (now : Nat) : Bool :=
  decide (e.ttl_seconds < now - e.created_at)

/-- CacheEntry.access: bump `access_count`, refresh `last_accessed`. -/
def CacheEntry.doAccess (e : CacheEntry V) (now : Nat) : CacheEntry V :=
  { e with access_count := e.access_count + 1, last_accessed := now }

/-! ## The in-memory cache (class MemoryCache, src/cache.py) -/

/-- MemoryCache state: configuration, the entry dict, and the stats dict
(whose three fixed keys are embedded as three counters). -/
structure MemoryCache (V : Type) where
  max_size : Nat
  default_ttl : Nat
  cache : List (String × CacheEntry V)
  hits : Nat
  misses : Nat
  evictions : Nat
deriving DecidableEq

/-- MemoryCache.__init__ (source defaults: max_size 1000, default_ttl 3600). -/
def MemoryCache.start (max_size default_ttl : Nat) : MemoryCache V :=
  { max_size := max_size, default_ttl := default_ttl, cache := [],
    hits := 0, misses := 0, evictions := 0 }

/-- MemoryCache.get. -/
def MemoryCache.get (s : MemoryCache V) (key : String) (now : Nat) :
    Option V × MemoryCache V :=
  match dictGet s.cache key with
  | none => (none, { s with misses := s.misses + 1 })
  | some entry =>
    if entry.is_expired now then
      (none, { s with cache := dictDel s.cache key, misses := s.misses + 1 })
    else
      (some entry.value,
        { s with hits := s.hits + 1,
                 cache := dictSet s.cache key (entry.doAccess now) })

/-- Python `min(keys, key=f)` keeps the first element achieving the minimum
(in iteration order): a later element replaces the current best only when its
measure is strictly smaller. -/
def stepMin (f : α → Nat) (best y : α) : α := if f y < f best then y else best

/-- First minimum of a list under measure `f`, as computed by Python `min`. -/
def firstMinBy (f : α → Nat) : List α → Option α
  | [] => none
  | x :: xs => some (xs.foldl (stepMin f) x)

/-- MemoryCache._evict_lru: on a nonempty dict, delete the first key in
iteration order whose entry has the smallest `last_accessed`, and count an
eviction; on an empty dict, return with no effect. -/
def MemoryCache.evict_lru (s : MemoryCache V) : MemoryCache V :=
  match firstMinBy (fun p => p.2.last_accessed) s.cache with
  | none => s
  | some lru =>
    { s with cache := dictDel s.cache lru.1, evictions := s.evictions + 1 }

/-- Effective TTL used by MemoryCache.set: `ttl_seconds or self.default_ttl`
(Python `or`: both `None` and the falsy `0` fall back to the default). -/
def MemoryCache.effectiveTtl (s : MemoryCache V) (ttl_seconds : Option Nat) : Nat :=
  match ttl_seconds with
  | none => s.default_ttl
  | some t => if t = 0 then s.default_ttl else t

/-- MemoryCache.set. -/
def MemoryCache.set (s : MemoryCache V) (key : String) (value : V)
    (ttl_seconds : Option Nat) (now : Nat) : MemoryCache V :=
  let ttl := s.effectiveTtl ttl_seconds
  let s1 :=
    if s.max_size ≤ s.cache.length ∧ (dictGet s.cache key).isNone then
      s.evict_lru
    else s
  { s1 with cache := dictSet s1.cache key (CacheEntry.make value ttl now) }

/-- MemoryCache.delete. -/
def MemoryCache.delete (s : MemoryCache V) (key : String) :
    Bool × MemoryCache V :=
  if (dictGet s.cache key).isSome then
    (true, { s with cache := dictDel s.cache key })
  else (false, s)

/-- MemoryCache.clear: drops every entry, touches nothing else. -/
def MemoryCache.clear (s : MemoryCache V) : MemoryCache V :=
  { s with cache := [] }

/-- MemoryCache.cleanup_expired: removes all currently stale entries and
reports how many were removed. -/
def MemoryCache.cleanup_expired (s : MemoryCache V) (now : Nat) :
    Nat × MemoryCache V :=
  let expired := s.cache.filter (fun p => p.2.is_expired now)
  (expired.length,
    { s with cache := s.cache.filter (fun p => ¬ p.2.is_expired now) })

/-! ## Key derivation (function cache_key, src/cache.py)

`cache_key(prefix, *args, **kwargs)` builds
`key_data = {"args": args, "kwargs": sorted(kwargs.items())}`, serializes it
deterministically (`json.dumps(..., sort_keys=True, default=str)`) and returns
`prefix + ":" + md5(serialization).hexdigest()`.  Argument values are embedded
as integers (the shape exercised by the spec); `sorted` on Python pairs is the
lexicographic order on (name, value). -/

/-- Lexicographic comparison Python uses to sort `kwargs.items()` pairs. -/
def kwLe (p q : String × Int) : Prop :=
  p.1 < q.1 ∨ (p.1 = q.1 ∧ p.2 ≤ q.2)

instance : DecidableRel kwLe := fun p q => by
  unfold kwLe; infer_instance

instance : IsTotal (String × Int) kwLe :=
  ⟨fun p q => by
    rcases lt_trichotomy p.1 q.1 with h | h | h
    · exact Or.inl (Or.inl h)
    · rcases le_total p.2 q.2 with h2 | h2
      · exact Or.inl (Or.inr ⟨h, h2⟩)
      · exact Or.inr (Or.inr ⟨h.symm, h2⟩)
    · exact Or.inr (Or.inl h)⟩

instance : IsTrans (String × Int) kwLe :=
  ⟨fun p q r hpq hqr => by
    rcases hpq with h1 | ⟨e1, v1⟩
    · rcases hqr with h2 | ⟨e2, v2⟩
      · exact Or.inl (h1.trans h2)
      · exact Or.inl (e2 ▸ h1)
    · rcases hqr with h2 | ⟨e2, v2⟩
      · exact Or.inl (e1 ▸ h2)
      · exact Or.inr ⟨e1.trans e2, v1.trans v2⟩⟩

instance : IsAntisymm (String × Int) kwLe :=
  ⟨fun p q hpq hqp => by
    rcases hpq with h1 | ⟨e1, v1⟩
    · rcases hqp with h2 | ⟨e2, v2⟩
      · exact absurd (h1.trans h2) (lt_irrefl _)
      · exact absurd (e2 ▸ h1) (lt_irrefl _)
    · rcases hqp with h2 | ⟨e2, v2⟩
      · exact absurd (e1 ▸ h2) (lt_irrefl _)
      · exact Prod.ext e1 (le_antisymm v1 v2)⟩

/-- `sorted(kwargs.items())`: the mapping entries in ascending (name, value)
order (a stable comparison sort; the result is the unique sorted arrangement
because the order is total and antisymmetric). -/
def sortedKwargs (kwargs : List (String × Int)) : List (String × Int) :=
  List.insertionSort kwLe kwargs

/-- Deterministic serialization of the positional arguments. -/
def serializeArgs : List Int → String
  | [] => ""
  | a :: rest => toString a ++ "," ++ serializeArgs rest

/-- Deterministic serialization of the sorted keyword pairs. -/
def serializeKwargs : List (String × Int) → String
  | [] => ""
  | (k, v) :: rest => k ++ "=" ++ toString v ++ ";" ++ serializeKwargs rest

/-- Serialization of `key_data`, modelling `json.dumps(key_data,
sort_keys=True, default=str)`: a deterministic rendering of the ordered
args list followed by the (already sorted) kwargs pairs. -/
def serializeKeyData (args : List Int) (kwargs : List (String × Int)) : String :=
  "args:" ++ serializeArgs args ++ "|kwargs:" ++ serializeKwargs kwargs

/-- Digest modelling `hashlib.md5(...).hexdigest()`: an abstract deterministic
digest of the serialized text (collision resistance is not formalised; the
claims checked here need only determinism). -/
def md5hex (s : String) : String :=
  toString (s.foldl (fun h c => (h * 131 + c.toNat) % (2 ^ 128)) 7)

/-- cache_key(prefix, *args, **kwargs) from src/cache.py (the namespace
prefix parameter is named `pfx` here). -/
def cache_key (pfx : String) (args : List Int)
    (kwargs : List (String × Int)) : String :=
  pfx ++ ":" ++ md5hex (serializeKeyData args (sortedKwargs kwargs))

/-! ## Task orchestrator (src/tasks.py) -/

/-- Enum TaskStatus. -/
inductive TaskStatus
  | pending
  | running
  | completed
  | failed
deriving DecidableEq

/-- Dataclass Task.  `result` is Pythons `Optional[Dict[str, Any]]`: `none`
both before completion and when the work function returned `None`; the
payload type of a non-None result is the parameter `V`.  `error` is the
`str(e)` rendering of the failure.  `progress` is 0.0 or 100.0 in the source
and is embedded as a natural number. -/
structure Task (V : Type) where
  id : String
  name : String
  status : TaskStatus
  created_at : Nat
  started_at : Option Nat
  completed_at : Option Nat
  result : Option V
  error : Option String
  progress : Nat
deriving DecidableEq

/-- Outcome of one execution of the submitted work function:
`Except.ok v` models a normal return (with `v = none` when the Python
function returned `None`), `Except.error e` models a raised exception
rendered by `str(e)` — which is the empty string for exceptions constructed
without a message. -/
abbrev WorkOutcome (V : Type) := Except String (Option V)

/-- TaskManager state: the task-record dict and the `running_tasks` dict of
live asyncio handles, of which only the key set and its insertion order are
observable here (ids, in schedule order). -/
structure TaskManager (V : Type) where
  tasks : List (String × Task V)
  running_tasks : List String
deriving DecidableEq

/-- TaskManager.__init__. -/
def TaskManager.start : TaskManager V :=
  { tasks := [], running_tasks := [] }

/-- TaskManager.create_task: insert a PENDING record synchronously and
register the scheduled handle under the fresh id (`uuid.uuid4()` is embedded
as an id parameter; freshness is a hypothesis where it matters). -/
def TaskManager.create_task (m : TaskManager V) (task_id name : String)
    (now : Nat) : TaskManager V :=
  { tasks := dictSet m.tasks task_id
      { id := task_id, name := name, status := .pending, created_at := now,
        started_at := none, completed_at := none, result := none,
        error := none, progress := 0 },
    running_tasks := m.running_tasks ++ [task_id] }

/-- First half of TaskManager._run_task: on actually starting, transition to
RUNNING and record `started_at`.  (The source indexes `self.tasks[task_id]`,
which cannot fail for ids handed out by create_task; on a missing id this
embedding leaves the state unchanged.) -/
def TaskManager.startRun (m : TaskManager V) (task_id : String) (now : Nat) :
    TaskManager V :=
  match dictGet m.tasks task_id with
  | none => m
  | some t =>
    let t' := { t with status := .running, started_at := some now }
    { m with tasks := dictSet m.tasks task_id t' }

/-- Second half of TaskManager._run_task: on normal return store the result,
set progress 100 and COMPLETED; on a raised exception store `str(e)` and
FAILED; in both cases record `completed_at` and, in the `finally` clause,
drop the id from `running_tasks`. -/
def TaskManager.finishRun (m : TaskManager V) (task_id : String)
    (outcome : WorkOutcome V) (now : Nat) : TaskManager V :=
  match dictGet m.tasks task_id with
  | none => m
  | some t =>
    let t' :=
      match outcome with
      | .ok v =>
        { t with status := .completed, completed_at := some now,
                 result := v, progress := 100 }
      | .error e =>
        { t with status := .failed, completed_at := some now,
                 error := some e }
    { tasks := dictSet m.tasks task_id t',
      running_tasks := m.running_tasks.erase task_id }

/-- TaskManager.cancel_task: succeeds only when the id is in `running_tasks`
AND the record status is RUNNING; it then requests cooperative cancellation
of the handle and marks the record FAILED with a cancellation error, but does
NOT remove the id from `running_tasks` (that is left to the `finally` clause
of the run wrapper).  (The source indexes `self.tasks[task_id]` after the
membership test; a live id missing from `tasks` cannot arise — see
`running_sub_tasks` — and this embedding returns false there.) -/
def TaskManager.cancel_task (m : TaskManager V) (task_id : String)
    (now : Nat) : Bool × TaskManager V :=
  if task_id ∈ m.running_tasks then
    match dictGet m.tasks task_id with
    | none => (false, m)
    | some t =>
      if t.status = .running then
        let t' := { t with status := .failed, error := some "Task cancelled",
                           completed_at := some now }
        (true, { m with tasks := dictSet m.tasks task_id t' })
      else (false, m)
  else (false, m)

/-- The `finally` clause of TaskManager._run_task as it runs after a
cooperative cancellation interrupted the work (CancelledError is not an
`Exception`, so only the cleanup of the `running_tasks` entry executes). -/
def TaskManager.reapCancelled (m : TaskManager V) (task_id : String) :
    TaskManager V :=
  { m with running_tasks := m.running_tasks.erase task_id }

/-- TaskManager.cleanup_old_tasks from src/tasks.py.  Its first statement
evaluates `timedelta(hours=max_age_hours)`, but tasks.py imports only
`datetime` from the datetime module, so the name `timedelta` is unbound and
every call raises NameError before any task is examined or removed. -/
def TaskManager.cleanup_old_tasks (_m : TaskManager V)
    (_max_age_hours : Nat) (_now : Nat) : Except String (TaskManager V) :=
  Except.error "NameError: name timedelta is not defined"

/-! ## Shape lemmas for the orchestrator operations -/

theorem dictGet_dictSet_inv {l : List (K × W)} {k k' : K} {v w : W}
    (h : dictGet (dictSet l k v) k' = some w) :
    (k' = k ∧ w = v) ∨ (k' ≠ k ∧ dictGet l k' = some w) := by
  by_cases hk : k' = k
  · subst hk
    rw [dictGet_dictSet_self] at h
    exact Or.inl ⟨rfl, (Option.some_inj.1 h).symm⟩
  · exact Or.inr ⟨hk, by rwa [dictGet_dictSet_ne _ _ _ _ hk] at h⟩

theorem dictGet_isSome_dictSet {l : List (K × W)} {k k' : K} {v : W}
    (h : (dictGet l k').isSome) : (dictGet (dictSet l k v) k').isSome := by
  by_cases hk : k' = k
  · subst hk; simp [dictGet_dictSet_self]
  · rwa [dictGet_dictSet_ne _ _ _ _ hk]

theorem startRun_eq {m : TaskManager V} {task_id : String} {t : Task V}
    (ht : dictGet m.tasks task_id = some t) (now : Nat) :
    m.startRun task_id now = { m with tasks := dictSet m.tasks task_id { t with status := .running, started_at := some now } } := by
  simp only [TaskManager.startRun, ht]

theorem finishRun_ok_eq {m : TaskManager V} {task_id : String} {t : Task V}
    (ht : dictGet m.tasks task_id = some t) (v : Option V) (now : Nat) :
    m.finishRun task_id (.ok v) now = { tasks := dictSet m.tasks task_id { t with status := .completed, completed_at := some now, result := v, progress := 100 }, running_tasks := m.running_tasks.erase task_id } := by
  simp only [TaskManager.finishRun, ht]

theorem finishRun_error_eq {m : TaskManager V} {task_id : String} {t : Task V}
    (ht : dictGet m.tasks task_id = some t) (e : String) (now : Nat) :
    m.finishRun task_id (.error e) now = { tasks := dictSet m.tasks task_id { t with status := .failed, completed_at := some now, error := some e }, running_tasks := m.running_tasks.erase task_id } := by
  simp only [TaskManager.finishRun, ht]

theorem cancel_task_not_mem {m : TaskManager V} {task_id : String}
    (h : task_id ∉ m.running_tasks) (now : Nat) :
    m.cancel_task task_id now = (false, m) := by
  simp [TaskManager.cancel_task, h]

theorem cancel_task_no_record {m : TaskManager V} {task_id : String}
    (hget : dictGet m.tasks task_id = none) (now : Nat) :
    m.cancel_task task_id now = (false, m) := by
  by_cases h : task_id ∈ m.running_tasks
  · simp only [TaskManager.cancel_task, h, if_true, hget]
  · exact cancel_task_not_mem h now

theorem cancel_task_not_running {m : TaskManager V} {task_id : String}
    {t : Task V} (ht : dictGet m.tasks task_id = some t)
    (hs : t.status ≠ .running) (now : Nat) :
    m.cancel_task task_id now = (false, m) := by
  by_cases h : task_id ∈ m.running_tasks
  · simp only [TaskManager.cancel_task, h, if_true, ht]
    simp [hs]
  · exact cancel_task_not_mem h now

theorem cancel_task_running {m : TaskManager V} {task_id : String}
    {t : Task V} (hmem : task_id ∈ m.running_tasks)
    (ht : dictGet m.tasks task_id = some t) (hs : t.status = .running)
    (now : Nat) :
    m.cancel_task task_id now = (true, { m with tasks := dictSet m.tasks task_id { t with status := .failed, error := some "Task cancelled", completed_at := some now } }) := by
  simp only [TaskManager.cancel_task, hmem, if_true, ht]
  simp [hs]

/-! ## Reachable orchestrator states -/

/-- One event of the orchestrator under its cooperative scheduling model:
task creation, the run wrapper actually starting a scheduled pending task,
the run wrapper finishing with the outcome of the work function, a
cancel_task call, and the run wrapper cleanup after a cancellation
interrupted the work.  The completion code of _run_task runs unconditionally
once the work returns or raises an Exception, so `finished` may fire while
the record is RUNNING (the normal path) or while it is already FAILED —
the case where cancel_task marked the record while the wrapper was suspended
inside the work and the work caught the CancelledError itself and continued;
the wrapper then overwrites the record without looking at its status.  A
`finished` step cannot fire on a PENDING record (the wrapper sets RUNNING
before evaluating the work, in the same function body) nor on a COMPLETED
one (the wrapper runs once and removes the id from the live dict when it
finishes). -/
inductive TMStep (V : Type) : TaskManager V → TaskManager V → Prop
  | create (m : TaskManager V) (task_id name : String) (now : Nat)
      (hfresh : dictGet m.tasks task_id = none) :
      TMStep V m (m.create_task task_id name now)
  | started (m : TaskManager V) (task_id : String) (now : Nat) (t : Task V)
      (ht : dictGet m.tasks task_id = some t) (hs : t.status = .pending)
      (hl : task_id ∈ m.running_tasks) :
      TMStep V m (m.startRun task_id now)
  | finished (m : TaskManager V) (task_id : String) (outcome : WorkOutcome V)
      (now : Nat) (t : Task V)
      (ht : dictGet m.tasks task_id = some t)
      (hs : t.status = .running ∨ t.status = .failed)
      (hl : task_id ∈ m.running_tasks) :
      TMStep V m (m.finishRun task_id outcome now)
  | cancelled (m : TaskManager V) (task_id : String) (now : Nat) :
      TMStep V m (m.cancel_task task_id now).2
  | reaped (m : TaskManager V) (task_id : String) (t : Task V)
      (ht : dictGet m.tasks task_id = some t) (hs : t.status = .failed)
      (hl : task_id ∈ m.running_tasks) :
      TMStep V m (m.reapCancelled task_id)

/-- Orchestrator states reachable from the fresh TaskManager. -/
inductive TMReachable (V : Type) : TaskManager V → Prop
  | start : TMReachable V TaskManager.start
  | step {m m' : TaskManager V} :
      TMReachable V m → TMStep V m m' → TMReachable V m'

/-- Structural well-formedness: every live id has a task record, and the
live ids are pairwise distinct. -/
def TMWf (m : TaskManager V) : Prop :=
  (∀ i ∈ m.running_tasks, (dictGet m.tasks i).isSome) ∧
    m.running_tasks.Nodup

theorem reachable_wf {m : TaskManager V} (hm : TMReachable V m) : TMWf m := by
  induction hm with
  | start =>
    exact ⟨fun i hi => by simp [TaskManager.start] at hi, by
      simp [TaskManager.start]⟩
  | @step m0 m1 hr hstep ih =>
    obtain ⟨hsub, hnd⟩ := ih
    cases hstep with
    | create task_id name now hfresh =>
      constructor
      · intro i hi
        simp only [TaskManager.create_task] at hi ⊢
        rcases List.mem_append.1 hi with hi | hi
        · exact dictGet_isSome_dictSet (hsub i hi)
        · have : i = task_id := by simpa using hi
          subst this
          simp [dictGet_dictSet_self]
      · simp only [TaskManager.create_task]
        have hnotmem : task_id ∉ m0.running_tasks := fun hmem => by
          have := hsub task_id hmem
          rw [hfresh] at this
          simp at this
        simp [List.nodup_append, hnd, hnotmem]
    | started task_id now t ht hs hl =>
      rw [startRun_eq ht now]
      exact ⟨fun i hi => dictGet_isSome_dictSet (hsub i hi), hnd⟩
    | finished task_id outcome now t ht hs hl =>
      cases outcome with
      | ok v =>
        rw [finishRun_ok_eq ht v now]
        exact ⟨fun i hi => dictGet_isSome_dictSet
          (hsub i (List.mem_of_mem_erase hi)), hnd.erase task_id⟩
      | error e =>
        rw [finishRun_error_eq ht e now]
        exact ⟨fun i hi => dictGet_isSome_dictSet
          (hsub i (List.mem_of_mem_erase hi)), hnd.erase task_id⟩
    | cancelled task_id now =>
      by_cases hmem : task_id ∈ m0.running_tasks
      · cases hget : dictGet m0.tasks task_id with
        | none => rw [cancel_task_no_record hget now]; exact ⟨hsub, hnd⟩
        | some t =>
          by_cases hst : t.status = .running
          · rw [cancel_task_running hmem hget hst now]
            exact ⟨fun i hi => dictGet_isSome_dictSet (hsub i hi), hnd⟩
          · rw [cancel_task_not_running hget hst now]; exact ⟨hsub, hnd⟩
      · rw [cancel_task_not_mem hmem now]; exact ⟨hsub, hnd⟩
    | reaped task_id t ht hs hl =>
      simp only [TaskManager.reapCancelled]
      exact ⟨fun i hi => hsub i (List.mem_of_mem_erase hi),
        hnd.erase task_id⟩

/-- Record-local field coupling maintained by every reachable task record:
FAILED records carry an error and no result; an error is carried only by a
FAILED record or by a COMPLETED record that still holds the cancellation
error (work that swallowed the CancelledError after cancel_task marked the
record); a populated result forces COMPLETED; COMPLETED records carry
progress 100; and PENDING/RUNNING records carry neither error nor result. -/
def TaskRecordOk (t : Task V) : Prop :=
  (t.status = .failed → t.error ≠ none ∧ t.result = none) ∧
  (t.error ≠ none → t.status = .failed ∨
    (t.status = .completed ∧ t.error = some "Task cancelled")) ∧
  (t.result ≠ none → t.status = .completed) ∧
  (t.status = .completed → t.progress = 100) ∧
  ((t.status = .pending ∨ t.status = .running) ->
    t.error = none ∧ t.result = none)

theorem reachable_task_fields {m : TaskManager V} (hm : TMReachable V m) :
    ∀ task_id t, dictGet m.tasks task_id = some t ->
      TaskRecordOk t ∧
      (t.status = .failed → task_id ∈ m.running_tasks ->
        t.error = some "Task cancelled") := by
  induction hm with
  | start =>
    intro task_id t ht
    simp [TaskManager.start, dictGet] at ht
  | @step m0 m1 hr hstep ih =>
    cases hstep with
    | create task_id name now hfresh =>
      intro i t' ht'
      simp only [TaskManager.create_task] at ht' ⊢
      rcases dictGet_dictSet_inv ht' with ⟨rfl, rfl⟩ | ⟨hne, hold⟩
      · exact ⟨⟨by simp, by simp, by simp, by simp, by simp⟩, by simp⟩
      · obtain ⟨hok, hcoup⟩ := ih i t' hold
        refine ⟨hok, fun hf hmem => ?_⟩
        rcases List.mem_append.1 hmem with hmem | hmem
        · exact hcoup hf hmem
        · exact absurd (by simpa using hmem) hne
    | started task_id now t ht hs hl =>
      intro i t' ht'
      rw [startRun_eq ht now] at ht' ⊢
      obtain ⟨hok, hcoup⟩ := ih task_id t ht
      rcases dictGet_dictSet_inv ht' with ⟨rfl, rfl⟩ | ⟨hne, hold⟩
      · have hnone := hok.2.2.2.2 (Or.inl hs)
        exact ⟨⟨by simp, by simp [hnone.1], by simp [hnone.2], by simp,
          by simp [hnone.1, hnone.2]⟩, by simp⟩
      · exact ih i t' hold
    | finished task_id outcome now t ht hs hl =>
      intro i t' ht'
      have hwf := reachable_wf hr
      obtain ⟨hok, hcoup⟩ := ih task_id t ht
      cases outcome with
      | ok v =>
        rw [finishRun_ok_eq ht v now] at ht' ⊢
        rcases dictGet_dictSet_inv ht' with ⟨rfl, rfl⟩ | ⟨hne, hold⟩
        · have herr : t.error = none ∨ t.error = some "Task cancelled" := by
            rcases hs with hrun | hfail
            · exact Or.inl (hok.2.2.2.2 (Or.inr hrun)).1
            · exact Or.inr (hcoup hfail hl)
          rcases herr with h0 | h0
          · exact ⟨⟨by simp, by simp [h0], by simp, by simp, by simp⟩,
              by simp⟩
          · exact ⟨⟨by simp, fun hne' => Or.inr ⟨rfl, h0⟩, by simp, by simp,
              by simp⟩, by simp⟩
        · obtain ⟨hok', hcoup'⟩ := ih i t' hold
          exact ⟨hok', fun hf hmem => hcoup' hf (List.mem_of_mem_erase hmem)⟩
      | error e =>
        rw [finishRun_error_eq ht e now] at ht' ⊢
        rcases dictGet_dictSet_inv ht' with ⟨rfl, rfl⟩ | ⟨hne, hold⟩
        · have hres : t.result = none := by
            rcases hs with hrun | hfail
            · exact (hok.2.2.2.2 (Or.inr hrun)).2
            · exact (hok.1 hfail).2
          refine ⟨⟨by simp [hres], by simp, by simp [hres], by simp,
            by simp⟩, fun _ hmem => ?_⟩
          exact absurd ((List.Nodup.mem_erase_iff hwf.2).1 hmem).1 (by simp)
        · obtain ⟨hok', hcoup'⟩ := ih i t' hold
          exact ⟨hok', fun hf hmem => hcoup' hf (List.mem_of_mem_erase hmem)⟩
    | cancelled task_id now =>
      intro i t' ht'
      by_cases hmem : task_id ∈ m0.running_tasks
      · cases hget : dictGet m0.tasks task_id with
        | none =>
          rw [cancel_task_no_record hget now] at ht' ⊢
          exact ih i t' ht'
        | some t =>
          by_cases hst : t.status = .running
          · rw [cancel_task_running hmem hget hst now] at ht' ⊢
            obtain ⟨hok, hcoup⟩ := ih task_id t hget
            rcases dictGet_dictSet_inv ht' with ⟨rfl, rfl⟩ | ⟨hne, hold⟩
            · have hnone := hok.2.2.2.2 (Or.inr hst)
              exact ⟨⟨fun _ => ⟨by simp, by simp [hnone.2]⟩,
                fun _ => Or.inl rfl, by simp [hnone.2], by simp, by simp⟩,
                fun _ _ => rfl⟩
            · exact ih i t' hold
          · rw [cancel_task_not_running hget hst now] at ht' ⊢
            exact ih i t' ht'
      · rw [cancel_task_not_mem hmem now] at ht' ⊢
        exact ih i t' ht'
    | reaped task_id t ht hs hl =>
      intro i t' ht'
      simp only [TaskManager.reapCancelled] at ht' ⊢
      obtain ⟨hok', hcoup'⟩ := ih i t' ht'
      exact ⟨hok', fun hf hmem => hcoup' hf (List.mem_of_mem_erase hmem)⟩

/-! ## Characterisation of the Python min (first minimum in iteration order) -/

theorem foldl_stepMin_spec (f : α → Nat) (xs : List α) (acc : α) :
    (xs.foldl (stepMin f) acc = acc ∧ ∀ z ∈ xs, f acc ≤ f z) ∨
    (∃ l₁ l₂, xs = l₁ ++ xs.foldl (stepMin f) acc :: l₂ ∧
      f (xs.foldl (stepMin f) acc) < f acc ∧
      (∀ z ∈ l₁, f (xs.foldl (stepMin f) acc) < f z) ∧
      (∀ z ∈ l₂, f (xs.foldl (stepMin f) acc) ≤ f z)) := by
  induction xs generalizing acc with
  | nil => exact Or.inl ⟨rfl, by simp⟩
  | cons y ys ih =>
    rw [List.foldl_cons]
    by_cases hlt : f y < f acc
    · have hstep : stepMin f acc y = y := by simp [stepMin, hlt]
      rw [hstep]
      rcases ih y with ⟨heq, hall⟩ | ⟨l₁, l₂, hsplit, hlt', hbef, haft⟩
      · refine Or.inr ⟨[], ys, by simp [heq], ?_, by simp, ?_⟩
        · rw [heq]; exact hlt
        · rw [heq]; exact hall
      · refine Or.inr ⟨y :: l₁, l₂, ?_, hlt'.trans hlt, ?_, haft⟩
        · rw [List.cons_append, ← hsplit]
        · intro z hz
          rcases List.mem_cons.1 hz with rfl | hz
          · exact hlt'
          · exact hbef z hz
    · have hstep : stepMin f acc y = acc := by simp [stepMin, hlt]
      rw [hstep]
      rcases ih acc with ⟨heq, hall⟩ | ⟨l₁, l₂, hsplit, hlt', hbef, haft⟩
      · refine Or.inl ⟨heq, ?_⟩
        intro z hz
        rcases List.mem_cons.1 hz with rfl | hz
        · exact Nat.le_of_not_lt hlt
        · exact hall z hz
      · refine Or.inr ⟨y :: l₁, l₂, by rw [List.cons_append, ← hsplit],
          hlt', ?_, haft⟩
        intro z hz
        rcases List.mem_cons.1 hz with rfl | hz
        · exact hlt'.trans_le (Nat.le_of_not_lt hlt)
        · exact hbef z hz

theorem firstMinBy_spec (f : α → Nat) (l : List α) (x : α)
    (h : firstMinBy f l = some x) :
    ∃ l₁ l₂, l = l₁ ++ x :: l₂ ∧ (∀ y ∈ l₁, f x < f y) ∧
      (∀ y ∈ l₂, f x ≤ f y) := by
  cases l with
  | nil => simp [firstMinBy] at h
  | cons a as =>
    have hx : as.foldl (stepMin f) a = x := by
      simpa [firstMinBy] using h
    have spec := foldl_stepMin_spec f as a
    rw [hx] at spec
    rcases spec with ⟨heq, hall⟩ | ⟨l₁, l₂, hsplit, hlt, hbef, haft⟩
    · exact ⟨[], as, by simp [heq], by simp, by rw [heq]; exact hall⟩
    · refine ⟨a :: l₁, l₂, by rw [List.cons_append, ← hsplit], ?_, haft⟩
      intro y hy
      rcases List.mem_cons.1 hy with rfl | hy
      · exact hlt
      · exact hbef y hy

theorem firstMinBy_isSome (f : α → Nat) (l : List α) (h : l ≠ []) :
    (firstMinBy f l).isSome := by
  cases l with
  | nil => exact absurd rfl h
  | cons a as => simp [firstMinBy]

/-! ## Shape lemmas for the cache operations -/

theorem dictGet_none_dictDel (l : List (K × V)) (k k' : K)
    (h : dictGet l k = none) : dictGet (dictDel l k') k = none := by
  induction l with
  | nil => simp [dictDel, dictGet]
  | cons p rest ih =>
    by_cases hp : p.1 = k'
    · have : p.1 ≠ k := by
        intro hk
        rw [dictGet, if_pos hk] at h
        exact Option.noConfusion h
      rw [dictGet, if_neg this] at h
      rw [dictDel, if_pos hp]
      exact h
    · by_cases hk : p.1 = k
      · rw [dictGet, if_pos hk] at h
        exact Option.noConfusion h
      · rw [dictGet, if_neg hk] at h
        rw [dictDel, if_neg hp, dictGet, if_neg hk]
        exact ih h

theorem get_miss_eq {s : MemoryCache V} {key : String}
    (hg : dictGet s.cache key = none) (now : Nat) :
    s.get key now = (none, { s with misses := s.misses + 1 }) := by
  simp only [MemoryCache.get, hg]

theorem get_stale_eq {s : MemoryCache V} {key : String} {e : CacheEntry V}
    (hg : dictGet s.cache key = some e) (now : Nat)
    (hexp : e.is_expired now = true) :
    s.get key now = (none, { s with cache := dictDel s.cache key, misses := s.misses + 1 }) := by
  simp only [MemoryCache.get, hg, hexp, if_true]

theorem get_hit_eq {s : MemoryCache V} {key : String} {e : CacheEntry V}
    (hg : dictGet s.cache key = some e) (now : Nat)
    (hexp : e.is_expired now = false) :
    s.get key now = (some e.value, { s with hits := s.hits + 1, cache := dictSet s.cache key (e.doAccess now) }) := by
  simp only [MemoryCache.get, hg, hexp, Bool.false_eq_true, if_false]

theorem set_no_evict_eq {s : MemoryCache V} {key : String} (value : V)
    (ttl : Option Nat) (now : Nat)
    (h : ¬(s.max_size ≤ s.cache.length ∧ (dictGet s.cache key).isNone)) :
    s.set key value ttl now = { s with cache := dictSet s.cache key (CacheEntry.make value (s.effectiveTtl ttl) now) } := by
  simp only [MemoryCache.set, if_neg h]

theorem evict_lru_eq {s : MemoryCache V} {lru : String × CacheEntry V}
    (h : firstMinBy (fun p => p.2.last_accessed) s.cache = some lru) :
    s.evict_lru = { s with cache := dictDel s.cache lru.1, evictions := s.evictions + 1 } := by
  simp only [MemoryCache.evict_lru, h]

theorem set_evict_eq {s : MemoryCache V} {key : String} (value : V)
    (ttl : Option Nat) (now : Nat) {lru : String × CacheEntry V}
    (hfull : s.max_size ≤ s.cache.length)
    (hnew : dictGet s.cache key = none)
    (hlru : firstMinBy (fun p => p.2.last_accessed) s.cache = some lru) :
    s.set key value ttl now = { s with cache := dictSet (dictDel s.cache lru.1) key (CacheEntry.make value (s.effectiveTtl ttl) now), evictions := s.evictions + 1 } := by
  have hcond : s.max_size ≤ s.cache.length ∧ (dictGet s.cache key).isNone := by
    exact ⟨hfull, by simp [hnew]⟩
  simp only [MemoryCache.set, if_pos hcond, evict_lru_eq hlru]

theorem set_max_size (s : MemoryCache V) (key : String) (value : V)
    (ttl : Option Nat) (now : Nat) :
    (s.set key value ttl now).max_size = s.max_size ∧
    (s.set key value ttl now).default_ttl = s.default_ttl := by
  by_cases h : s.max_size ≤ s.cache.length ∧ (dictGet s.cache key).isNone
  · cases hc : s.cache with
    | nil =>
      rw [hc] at h
      simp only [MemoryCache.set, if_pos h, MemoryCache.evict_lru, hc]
      simp [firstMinBy]
    | cons a as =>
      have hsome := firstMinBy_isSome (fun p => p.2.last_accessed) s.cache
        (by rw [hc]; exact List.cons_ne_nil a as)
      obtain ⟨lru, hlru⟩ := Option.isSome_iff_exists.1 hsome
      rw [set_evict_eq value ttl now h.1
        (by
          have := h.2
          cases hg : dictGet s.cache key
          · rfl
          · rw [hg] at this; simp at this) hlru]
      exact ⟨rfl, rfl⟩
  · rw [set_no_evict_eq value ttl now h]
    exact ⟨rfl, rfl⟩

/-- Length bound for set: in any state already within capacity, with a
positive capacity, a set call keeps the entry count within capacity. -/
theorem set_length_le {s : MemoryCache V} (key : String) (value : V)
    (ttl : Option Nat) (now : Nat) (hmax : 1 ≤ s.max_size)
    (hlen : s.cache.length ≤ s.max_size) :
    (s.set key value ttl now).cache.length ≤ s.max_size := by
  by_cases h : s.max_size ≤ s.cache.length ∧ (dictGet s.cache key).isNone
  · have hnew : dictGet s.cache key = none := by
      have := h.2
      cases hg : dictGet s.cache key
      · rfl
      · rw [hg] at this; simp at this
    have hne : s.cache ≠ [] := by
      intro hc
      rw [hc] at h
      simp at h
      omega
    obtain ⟨lru, hlru⟩ := Option.isSome_iff_exists.1
      (firstMinBy_isSome (fun p => p.2.last_accessed) s.cache hne)
    rw [set_evict_eq value ttl now h.1 hnew hlru]
    obtain ⟨l₁, l₂, hsplit, _, _⟩ :=
      firstMinBy_spec (fun p => p.2.last_accessed) s.cache lru hlru
    have hmem : lru ∈ s.cache := by
      rw [hsplit]
      exact List.mem_append.2 (Or.inr (List.mem_cons_self lru l₂))
    have hlrusome : (dictGet s.cache lru.1).isSome :=
      dictGet_isSome_of_mem s.cache lru.1 lru.2 (by simpa using hmem)
    have hdel : (dictDel s.cache lru.1).length + 1 = s.cache.length :=
      dictDel_length s.cache lru.1 hlrusome
    have hkeygone : dictGet (dictDel s.cache lru.1) key = none :=
      dictGet_none_dictDel s.cache key lru.1 hnew
    rw [dictSet_length, hkeygone]
    simp only [Option.isSome_none, Bool.false_eq_true, if_false]
    omega
  · rw [set_no_evict_eq value ttl now h]
    rw [dictSet_length]
    by_cases hg : (dictGet s.cache key).isSome
    · simp only [hg, if_true]
      exact hlen
    · simp only [hg, Bool.false_eq_true, if_false]
      have : ¬ s.max_size ≤ s.cache.length := by
        intro hle
        exact h ⟨hle, by
          cases hgg : dictGet s.cache key
          · rfl
          · rw [hgg] at hg; simp at hg⟩
      omega

/-! ## Reachable cache states -/

/-- One public cache operation. -/
inductive CacheStep (V : Type) : MemoryCache V → MemoryCache V → Prop
  | readOp (s : MemoryCache V) (key : String) (now : Nat) :
      CacheStep V s (s.get key now).2
  | writeOp (s : MemoryCache V) (key : String) (value : V)
      (ttl : Option Nat) (now : Nat) :
      CacheStep V s (s.set key value ttl now)
  | delOp (s : MemoryCache V) (key : String) :
      CacheStep V s (s.delete key).2
  | clearOp (s : MemoryCache V) : CacheStep V s s.clear
  | sweepOp (s : MemoryCache V) (now : Nat) :
      CacheStep V s (s.cleanup_expired now).2

/-- Cache states reachable from a freshly constructed MemoryCache. -/
inductive CacheReachable (V : Type) : MemoryCache V → Prop
  | start (max_size default_ttl : Nat) :
      CacheReachable V (MemoryCache.start max_size default_ttl)
  | step {s s' : MemoryCache V} :
      CacheReachable V s → CacheStep V s s' → CacheReachable V s'

theorem cacheStep_max_size {s s' : MemoryCache V} (h : CacheStep V s s') :
    s'.max_size = s.max_size := by
  cases h with
  | readOp key now =>
    cases hg : dictGet s.cache key with
    | none => rw [get_miss_eq hg now]
    | some e =>
      cases hexp : e.is_expired now with
      | true => rw [get_stale_eq hg now hexp]
      | false => rw [get_hit_eq hg now hexp]
  | writeOp key value ttl now => exact (set_max_size s key value ttl now).1
  | delOp key =>
    by_cases hg : (dictGet s.cache key).isSome
    · simp only [MemoryCache.delete, hg, if_true]
    · simp only [MemoryCache.delete, hg, Bool.false_eq_true, if_false]
  | clearOp => rfl
  | sweepOp now => rfl

theorem cache_reachable_size_le {s : MemoryCache V}
    (h : CacheReachable V s) (hmax : 1 ≤ s.max_size) :
    s.cache.length ≤ s.max_size := by
  induction h with
  | start max_size default_ttl => simp [MemoryCache.start]
  | @step s0 s1 hr hstep ih =>
    have hms : s1.max_size = s0.max_size := cacheStep_max_size hstep
    rw [hms] at hmax ⊢
    have hlen0 := ih hmax
    cases hstep with
    | readOp key now =>
      cases hg : dictGet s0.cache key with
      | none => rw [get_miss_eq hg now]; exact hlen0
      | some e =>
        cases hexp : e.is_expired now with
        | true =>
          rw [get_stale_eq hg now hexp]
          exact le_trans (dictDel_length_le s0.cache key) hlen0
        | false =>
          rw [get_hit_eq hg now hexp]
          have hsame : (dictSet s0.cache key (e.doAccess now)).length = s0.cache.length := by
            rw [dictSet_length]
            simp [hg]
          simpa [hsame] using hlen0
    | writeOp key value ttl now => exact set_length_le key value ttl now hmax hlen0
    | delOp key =>
      by_cases hg : (dictGet s0.cache key).isSome
      · simp only [MemoryCache.delete, hg, if_true]
        exact le_trans (dictDel_length_le s0.cache key) hlen0
      · simp only [MemoryCache.delete, hg, Bool.false_eq_true, if_false]
        exact hlen0
    | clearOp => simp [MemoryCache.clear]
    | sweepOp now =>
      exact le_trans (List.length_filter_le _ s0.cache) hlen0

/-! ## Claim theorems: the cache -/

/-- C4: get(key) records a miss and returns absent when the key is missing;
removes the entry, records a miss and returns absent when the entry is stale
(now - created_at > ttl); otherwise records a hit, bumps access_count,
refreshes last_accessed and returns the stored value.  An entry is visible to
a reader iff now - created_at <= ttl, and a stale entry is removed before the
miss is reported. -/
theorem get_spec (s : MemoryCache V) (key : String) (now : Nat) :
    (dictGet s.cache key = none →
      s.get key now = (none, { s with misses := s.misses + 1 })) ∧
    (∀ e : CacheEntry V, dictGet s.cache key = some e →
      e.ttl_seconds < now - e.created_at →
      s.get key now = (none, { s with cache := dictDel s.cache key, misses := s.misses + 1 })) ∧
    (∀ e : CacheEntry V, dictGet s.cache key = some e →
      now - e.created_at ≤ e.ttl_seconds →
      s.get key now = (some e.value, { s with hits := s.hits + 1, cache := dictSet s.cache key (e.doAccess now) })) ∧
    ((s.get key now).1.isSome ↔
      ∃ e : CacheEntry V, dictGet s.cache key = some e ∧
        now - e.created_at ≤ e.ttl_seconds) := by
  refine ⟨fun hg => get_miss_eq hg now, fun e hg hstale => ?_,
    fun e hg hfresh => ?_, ?_⟩
  · exact get_stale_eq hg now (by simp [CacheEntry.is_expired, hstale])
  · refine get_hit_eq hg now ?_
    simp only [CacheEntry.is_expired, decide_eq_false_iff_not]
    omega
  · constructor
    · intro hsome
      cases hg : dictGet s.cache key with
      | none => rw [get_miss_eq hg now] at hsome; simp at hsome
      | some e =>
        cases hexp : e.is_expired now with
        | true => rw [get_stale_eq hg now hexp] at hsome; simp at hsome
        | false =>
          refine ⟨e, rfl, ?_⟩
          have hn : ¬ e.ttl_seconds < now - e.created_at := by
            simpa [CacheEntry.is_expired] using hexp
          omega
    · rintro ⟨e, hg, hfresh⟩
      have hexp : e.is_expired now = false := by
        simp only [CacheEntry.is_expired, decide_eq_false_iff_not]
        omega
      rw [get_hit_eq hg now hexp]
      simp

/-- Concrete cache used to witness C4: one entry with TTL 1 set at time 0. -/
def c4State : MemoryCache Nat :=
  (MemoryCache.start 10 100).set "k" 7 (some 1) 0

theorem get_spec_witness :
    (c4State.get "k" 1).1 = some 7 ∧ (c4State.get "k" 2).1 = none := by
  constructor
  · have h := (get_spec c4State "k" 1).2.2.1 (CacheEntry.make 7 1 0)
      (by decide) (by decide)
    rw [h]
    rfl
  · have h := (get_spec c4State "k" 2).2.1 (CacheEntry.make 7 1 0)
      (by decide) (by decide)
    rw [h]


/-- C9: clear() removes every entry (size becomes 0) while leaving the
cumulative hits, misses and evictions counters — and the configuration —
unchanged. -/
theorem clear_spec (s : MemoryCache V) :
    (MemoryCache.clear s).cache = [] ∧
    (MemoryCache.clear s).hits = s.hits ∧
    (MemoryCache.clear s).misses = s.misses ∧
    (MemoryCache.clear s).evictions = s.evictions ∧
    (MemoryCache.clear s).max_size = s.max_size ∧
    (MemoryCache.clear s).default_ttl = s.default_ttl :=
  ⟨rfl, rfl, rfl, rfl, rfl, rfl⟩

/-- C10: set(key, value, ttl_seconds=0) silently replaces the falsy TTL 0 by
the cache default_ttl, so the entry is not immediately stale and stays
readable while now - created_at <= default_ttl. -/
theorem set_zero_ttl_uses_default (s : MemoryCache V) (key : String)
    (value : V) (now t : Nat) :
    dictGet (s.set key value (some 0) now).cache key =
      some (CacheEntry.make value s.default_ttl now) ∧
    ((s.set key value (some 0) now).get key now).1 = some value ∧
    (t - now ≤ s.default_ttl →
      ((s.set key value (some 0) now).get key t).1 = some value) := by
  have httl : s.effectiveTtl (some 0) = s.default_ttl := rfl
  have hstored : dictGet (s.set key value (some 0) now).cache key =
      some (CacheEntry.make value s.default_ttl now) := by
    rw [← httl]
    simp only [MemoryCache.set]
    exact dictGet_dictSet_self _ _ _
  refine ⟨hstored, ?_, fun hfresh => ?_⟩
  · have hexp : (CacheEntry.make value s.default_ttl now).is_expired now = false := by
      simp [CacheEntry.is_expired, CacheEntry.make]
    rw [get_hit_eq hstored now hexp]
    rfl
  · have hexp : (CacheEntry.make value s.default_ttl now).is_expired t = false := by
      simp only [CacheEntry.is_expired, CacheEntry.make,
        decide_eq_false_iff_not]
      omega
    rw [get_hit_eq hstored t hexp]
    rfl


theorem set_zero_ttl_uses_default_witness :
    (((MemoryCache.start 5 60 : MemoryCache Nat).set "k" 3 (some 0) 10).get "k" 40).1 = some 3 :=
  (set_zero_ttl_uses_default (MemoryCache.start 5 60) "k" 3 10 40).2.2
    (by decide)

/-- C7 (amended): provided max_size >= 1 the capacity invariant
len(entries) <= max_size is preserved by every set call (and so holds in
every reachable state of a cache configured with max_size >= 1); with
max_size = 0 a set of a new key leaves one entry, because eviction on an
empty dict is a no-op.  Overwriting an existing key never evicts and leaves
the evictions counter unchanged, and every insert or overwrite stores the
entry with a fresh created_at = now. -/
theorem set_capacity_spec (s : MemoryCache V) (key : String) (value : V)
    (ttl : Option Nat) (now : Nat) :
    (1 ≤ s.max_size → s.cache.length ≤ s.max_size →
      (s.set key value ttl now).cache.length ≤ s.max_size) ∧
    (CacheReachable V s → 1 ≤ s.max_size →
      (s.set key value ttl now).cache.length ≤ s.max_size) ∧
    ((dictGet s.cache key).isSome →
      (s.set key value ttl now).cache =
        dictSet s.cache key (CacheEntry.make value (s.effectiveTtl ttl) now) ∧
      (s.set key value ttl now).evictions = s.evictions) ∧
    dictGet (s.set key value ttl now).cache key =
      some (CacheEntry.make value (s.effectiveTtl ttl) now) := by
  refine ⟨fun hmax hlen => set_length_le key value ttl now hmax hlen,
    fun hreach hmax =>
      set_length_le key value ttl now hmax (cache_reachable_size_le hreach hmax),
    fun hsome => ?_, ?_⟩
  · have hcond : ¬ (s.max_size ≤ s.cache.length ∧ (dictGet s.cache key).isNone) := by
      rintro ⟨-, hnone⟩
      rw [Option.isNone_iff_eq_none] at hnone
      rw [hnone] at hsome
      simp at hsome
    rw [set_no_evict_eq value ttl now hcond]
    exact ⟨rfl, rfl⟩
  · simp only [MemoryCache.set]
    exact dictGet_dictSet_self _ _ _

/-- Concrete cache used to witness C7: capacity 2 holding one entry. -/
def c7State : MemoryCache Nat := (MemoryCache.start 2 3600).set "k" 1 none 0

theorem set_capacity_spec_witness :
    ((c7State.set "k2" 2 none 5).cache.length ≤ c7State.max_size) ∧
    (c7State.set "k" 9 none 5).evictions = c7State.evictions ∧
    dictGet (c7State.set "k" 9 none 5).cache "k" =
      some (CacheEntry.make 9 3600 5) := by
  refine ⟨(set_capacity_spec c7State "k2" 2 none 5).1 (by decide) (by decide),
    ((set_capacity_spec c7State "k" 9 none 5).2.2.1 (by decide)).2, ?_⟩
  exact (set_capacity_spec c7State "k" 9 none 5).2.2.2

/-- C7 counterexample: a cache constructed with max_size = 0 violates
len(entries) <= max_size right after its first set call, because _evict_lru
on an empty dict returns without evicting. -/
theorem set_capacity_zero_counterexample :
    ¬ (((MemoryCache.start 0 3600 : MemoryCache Nat).set "k" 1 none 0).cache.length ≤
        (MemoryCache.start 0 3600 : MemoryCache Nat).max_size) := by
  decide

/-- C3 (amended): when set inserts a new key while len(entries) == max_size
(>= 1), exactly one entry is evicted — the FIRST entry in dict insertion
order among those with the smallest last_accessed (no created_at or key-order
tie-breaking happens) — the evictions counter is incremented by one, and the
entry count returns to max_size.  The concrete scenario of the claim
(set a, set b, get a, set c with max_size 2 evicting b with evictions = 1)
does hold and is checked by the witness. -/
theorem set_eviction_spec (s : MemoryCache V) (key : String) (value : V)
    (ttl : Option Nat) (now : Nat)
    (hnew : dictGet s.cache key = none)
    (hfull : s.cache.length = s.max_size) (hpos : 1 ≤ s.max_size) :
    ∃ lru : String × CacheEntry V, ∃ l₁ l₂ : List (String × CacheEntry V),
      firstMinBy (fun p => p.2.last_accessed) s.cache = some lru ∧
      s.cache = l₁ ++ lru :: l₂ ∧
      (∀ p ∈ l₁, lru.2.last_accessed < p.2.last_accessed) ∧
      (∀ p ∈ l₂, lru.2.last_accessed ≤ p.2.last_accessed) ∧
      s.set key value ttl now =
        { s with cache := dictSet (dictDel s.cache lru.1) key (CacheEntry.make value (s.effectiveTtl ttl) now),
                 evictions := s.evictions + 1 } ∧
      (s.set key value ttl now).cache.length = s.max_size := by
  have hne : s.cache ≠ [] := by
    intro hc
    rw [hc] at hfull
    simp at hfull
    omega
  obtain ⟨lru, hlru⟩ := Option.isSome_iff_exists.1
    (firstMinBy_isSome (fun p => p.2.last_accessed) s.cache hne)
  obtain ⟨l₁, l₂, hsplit, hbef, haft⟩ :=
    firstMinBy_spec (fun p => p.2.last_accessed) s.cache lru hlru
  have heq := set_evict_eq value ttl now (le_of_eq hfull.symm) hnew hlru
  refine ⟨lru, l₁, l₂, hlru, hsplit, hbef, haft, heq, ?_⟩
  have hmem : lru ∈ s.cache := by
    rw [hsplit]
    exact List.mem_append.2 (Or.inr (List.mem_cons_self lru l₂))
  have hlrusome : (dictGet s.cache lru.1).isSome :=
    dictGet_isSome_of_mem s.cache lru.1 lru.2 (by simpa using hmem)
  have hdel : (dictDel s.cache lru.1).length + 1 = s.cache.length :=
    dictDel_length s.cache lru.1 hlrusome
  have hkeygone : dictGet (dictDel s.cache lru.1) key = none :=
    dictGet_none_dictDel s.cache key lru.1 hnew
  rw [heq]
  simp only [dictSet_length, hkeygone, Option.isSome_none,
    Bool.false_eq_true, if_false]
  omega

/-- Concrete cache used for C3: max_size 2 after set(a,1)@0, set(b,2)@1 and
get(a)@2 (which refreshes the recency of a). -/
def c3State : MemoryCache Nat :=
  ((((MemoryCache.start 2 3600).set "a" 1 none 0).set "b" 2 none 1).get "a" 2).2

theorem set_eviction_spec_witness :
    (∃ lru : String × CacheEntry Nat, ∃ l₁ l₂ : List (String × CacheEntry Nat),
      firstMinBy (fun p => p.2.last_accessed) c3State.cache = some lru ∧
      c3State.cache = l₁ ++ lru :: l₂ ∧
      (∀ p ∈ l₁, lru.2.last_accessed < p.2.last_accessed) ∧
      (∀ p ∈ l₂, lru.2.last_accessed ≤ p.2.last_accessed) ∧
      c3State.set "c" 3 none 3 =
        { c3State with cache := dictSet (dictDel c3State.cache lru.1) "c" (CacheEntry.make 3 (c3State.effectiveTtl none) 3),
                       evictions := c3State.evictions + 1 } ∧
      (c3State.set "c" 3 none 3).cache.length = c3State.max_size) ∧
    dictGet (c3State.set "c" 3 none 3).cache "b" = none ∧
    (dictGet (c3State.set "c" 3 none 3).cache "a").isSome ∧
    (c3State.set "c" 3 none 3).evictions = 1 :=
  ⟨set_eviction_spec c3State "c" 3 none 3 (by decide) (by decide) (by decide),
    by decide, by decide, by decide⟩

/-- Concrete cache refuting the tie-break of C3: two entries inserted as b
then a with identical timestamps (equal last_accessed and created_at). -/
def c3TieState : MemoryCache Nat :=
  ((MemoryCache.start 2 3600).set "b" 0 none 0).set "a" 0 none 0

/-- C3 counterexample: with two entries tied on last_accessed and created_at
and "a" < "b" in key order, the claimed created_at/key tie-breaking would
evict a, but the code evicts b — Python min keeps the first minimum in dict
insertion order. -/
theorem set_eviction_tiebreak_counterexample :
    (dictGet c3TieState.cache "a").map (fun e => (e.last_accessed, e.created_at)) =
      (dictGet c3TieState.cache "b").map (fun e => (e.last_accessed, e.created_at)) ∧
    ("a" : String) < "b" ∧
    dictGet (c3TieState.set "c" 0 none 1).cache "b" = none ∧
    (dictGet (c3TieState.set "c" 0 none 1).cache "a").isSome := by
  refine ⟨by decide, ?_, by decide, by decide⟩
  rw [String.lt_iff_toList_lt]
  decide

/-- C8: the derived cache key never depends on the order of the name-value
mapping: permuting the kwargs mapping leaves cache_key unchanged (the pairs
are sorted before hashing, and sorted rearrangements of the same multiset
coincide because the pair order is total and antisymmetric). -/
theorem cache_key_perm_invariant (pfx : String) (args : List Int)
    (m1 m2 : List (String × Int)) (hperm : List.Perm m1 m2) :
    cache_key pfx args m1 = cache_key pfx args m2 := by
  have hsorted : sortedKwargs m1 = sortedKwargs m2 :=
    List.eq_of_perm_of_sorted
      (((List.perm_insertionSort kwLe m1).trans hperm).trans
        (List.perm_insertionSort kwLe m2).symm)
      (List.sorted_insertionSort kwLe m1)
      (List.sorted_insertionSort kwLe m2)
  unfold cache_key sortedKwargs at hsorted ⊢
  rw [hsorted]

theorem cache_key_perm_invariant_witness :
    cache_key "p" [1, 2] [("y", 2), ("x", 1)] =
      cache_key "p" [1, 2] [("x", 1), ("y", 2)] :=
  cache_key_perm_invariant "p" [1, 2] _ _ (List.Perm.swap ("x", 1) ("y", 2) [])

/-! ## Claim theorems: the task orchestrator -/

/-- C1 (amended): cancel_task(id) returns true iff id is in the live mapping
AND the record status is RUNNING; in that case it marks the task FAILED with
error "Task cancelled" and completed_at = now but leaves the id in the live
mapping (removal is performed later by the run wrapper cleanup).  It returns
false, with no state change, when the id is unknown, the task is still
PENDING, or the task is already terminal; in particular cancelling
immediately after create_task returns false and leaves the task PENDING, and
a second cancel_task on the same id always returns false. -/
theorem cancel_task_spec (m : TaskManager V) (task_id : String)
    (now now2 : Nat)
    (hsub : ∀ i ∈ m.running_tasks, (dictGet m.tasks i).isSome) :
    ((m.cancel_task task_id now).1 = true ↔
      task_id ∈ m.running_tasks ∧
        (dictGet m.tasks task_id).map Task.status = some .running) ∧
    ((m.cancel_task task_id now).1 = true →
      (dictGet (m.cancel_task task_id now).2.tasks task_id).map
          (fun t => (t.status, t.error, t.completed_at)) =
        some (.failed, some "Task cancelled", some now) ∧
      task_id ∈ (m.cancel_task task_id now).2.running_tasks) ∧
    ((m.cancel_task task_id now).1 = false →
      (m.cancel_task task_id now).2 = m) ∧
    ((m.cancel_task task_id now).2.cancel_task task_id now2).1 = false := by
  by_cases hmem : task_id ∈ m.running_tasks
  · cases hget : dictGet m.tasks task_id with
    | none =>
      have := hsub task_id hmem
      rw [hget] at this
      simp at this
    | some t =>
      by_cases hst : t.status = .running
      · have heq := cancel_task_running hmem hget hst now
        rw [heq]
        refine ⟨?_, ?_, ?_, ?_⟩
        · simp [hmem, hget, hst]
        · intro _
          constructor
          · simp [dictGet_dictSet_self]
          · exact hmem
        · intro hfalse
          exact absurd hfalse (by simp)
        · have hget2 : dictGet (dictSet m.tasks task_id { t with status := .failed, error := some "Task cancelled", completed_at := some now }) task_id = some { t with status := .failed, error := some "Task cancelled", completed_at := some now } :=
            dictGet_dictSet_self _ _ _
          have := cancel_task_not_running (m := { m with tasks := dictSet m.tasks task_id { t with status := .failed, error := some "Task cancelled", completed_at := some now } }) hget2 (by simp) now2
          rw [this]
      · have heq := cancel_task_not_running hget hst now
        rw [heq]
        refine ⟨?_, fun hfalse => absurd hfalse.symm (by simp), fun _ => rfl, ?_⟩
        · simp only [hget, Option.map_some]
          constructor
          · intro hfalse
            exact absurd hfalse (by simp)
          · rintro ⟨-, hstat⟩
            exact absurd (Option.some_inj.1 hstat) hst
        · rw [cancel_task_not_running hget hst now2]
  · have heq := cancel_task_not_mem hmem now
    rw [heq]
    refine ⟨?_, fun hfalse => absurd hfalse.symm (by simp), fun _ => rfl, ?_⟩
    · constructor
      · intro hfalse
        exact absurd hfalse (by simp)
      · rintro ⟨hmem', -⟩
        exact absurd hmem' hmem
    · rw [cancel_task_not_mem hmem now2]

/-- Concrete orchestrator used for C1: one task created at 0 and started
at 1 (status RUNNING, id live). -/
def c1State : TaskManager Nat :=
  (TaskManager.start.create_task "t1" "job" 0).startRun "t1" 1

theorem cancel_task_spec_witness :
    ((c1State.cancel_task "t1" 2).1 = true) ∧
    (dictGet (c1State.cancel_task "t1" 2).2.tasks "t1").map
        (fun t => (t.status, t.error, t.completed_at)) =
      some (.failed, some "Task cancelled", some 2) ∧
    "t1" ∈ (c1State.cancel_task "t1" 2).2.running_tasks ∧
    (((c1State.cancel_task "t1" 2).2.cancel_task "t1" 3).1 = false) := by
  have h := cancel_task_spec c1State "t1" 2 3 (by decide)
  have htrue : (c1State.cancel_task "t1" 2).1 = true :=
    h.1.2 ⟨by decide, by decide⟩
  exact ⟨htrue, (h.2.1 htrue).1, (h.2.1 htrue).2, h.2.2.2⟩

/-- Concrete orchestrator refuting C1 as stated: one task just created,
still PENDING, its id live. -/
def c1Pending : TaskManager Nat := TaskManager.start.create_task "t1" "job" 0

/-- C1 counterexample: cancelling immediately after create_task — the id is
in the live mapping with status PENDING — returns false and changes nothing,
where the claim demands true and a FAILED record; and a successful cancel of
a RUNNING task leaves the id in the live mapping, where the claim demands
its removal. -/
theorem cancel_task_counterexample :
    ("t1" ∈ c1Pending.running_tasks) ∧
    (dictGet c1Pending.tasks "t1").map Task.status = some .pending ∧
    (c1Pending.cancel_task "t1" 1).1 = false ∧
    (c1Pending.cancel_task "t1" 1).2 = c1Pending ∧
    ((c1Pending.startRun "t1" 1).cancel_task "t1" 2).1 = true ∧
    "t1" ∈ ((c1Pending.startRun "t1" 1).cancel_task "t1" 2).2.running_tasks :=
  ⟨by decide, by decide, by decide, by decide, by decide, by decide⟩

/-- Concrete orchestrator for C2: one task COMPLETED at time 0, so that a
cleanup with any cutoff far in the future ought to purge it. -/
def c2State : TaskManager Nat :=
  ((TaskManager.start.create_task "t1" "job" 0).startRun "t1" 0).finishRun
    "t1" (.ok (some 1)) 0

/-- C2 (code bug): cleanup_old_tasks never removes anything — tasks.py does
not import timedelta, so the very first statement of the function raises
NameError for every max_age argument; here it is evaluated on a state
holding a long-terminal COMPLETED task. -/
theorem cleanup_old_tasks_raises :
    (dictGet c2State.tasks "t1").map Task.status = some .completed ∧
    (dictGet c2State.tasks "t1").bind Task.completed_at = some 0 ∧
    c2State.cleanup_old_tasks 24 1000000 =
      Except.error "NameError: name timedelta is not defined" :=
  ⟨by decide, by decide, rfl⟩

/-- C5 (amended): in every reachable orchestrator state, a FAILED task has
error present and result absent; a present error implies status FAILED,
except that a COMPLETED record may retain the cancellation error when its
work swallowed the CancelledError after cancel_task marked the record; a
present result forces status COMPLETED (but a COMPLETED task may have an
absent result when its work function returned None); and COMPLETED implies
progress 100.  Moreover finishing a (non-cancelled) RUNNING task normally
stores exactly the returned value with progress 100, status COMPLETED and no
error. -/
theorem task_result_error_invariant {m : TaskManager V}
    (hm : TMReachable V m) (task_id : String) (t : Task V)
    (ht : dictGet m.tasks task_id = some t) :
    ((t.status = .failed → t.error ≠ none ∧ t.result = none) ∧
     (t.error ≠ none → t.status = .failed ∨
       (t.status = .completed ∧ t.error = some "Task cancelled")) ∧
     (t.result ≠ none → t.status = .completed) ∧
     (t.status = .completed → t.progress = 100)) ∧
    (∀ v : Option V, ∀ now : Nat, t.status = .running →
      (dictGet (m.finishRun task_id (.ok v) now).tasks task_id).map
          (fun u => (u.status, u.result, u.progress, u.error)) =
        some (.completed, v, 100, none)) := by
  obtain ⟨hok, hcoup⟩ := reachable_task_fields hm task_id t ht
  refine ⟨⟨hok.1, hok.2.1, hok.2.2.1, hok.2.2.2.1⟩, fun v now hrun => ?_⟩
  have herr : t.error = none := (hok.2.2.2.2 (Or.inr hrun)).1
  rw [finishRun_ok_eq ht v now]
  simp [dictGet_dictSet_self, herr]

def c5Create : TaskManager Nat := TaskManager.start.create_task "t1" "job" 0

def c5Started : TaskManager Nat := c5Create.startRun "t1" 1

/-- Task record held by c5Create. -/
def c5PendingRecord : Task Nat :=
  { id := "t1", name := "job", status := .pending, created_at := 0,
    started_at := none, completed_at := none, result := none, error := none,
    progress := 0 }

/-- Task record held by c5Started. -/
def c5RunningRecord : Task Nat :=
  { c5PendingRecord with status := .running, started_at := some 1 }

theorem c5CreateReach : TMReachable Nat c5Create :=
  .step .start (.create TaskManager.start "t1" "job" 0 (by decide))

theorem c5StartedReach : TMReachable Nat c5Started :=
  .step c5CreateReach
    (.started c5Create "t1" 1 c5PendingRecord (by decide) (by decide)
      (by decide))

def c5Done : TaskManager Nat := c5Started.finishRun "t1" (.ok (some 5)) 2

theorem c5DoneReach : TMReachable Nat c5Done :=
  .step c5StartedReach
    (.finished c5Started "t1" (.ok (some 5)) 2 c5RunningRecord (by decide)
      (by decide) (by decide))

/-- Task record held by c5Done. -/
def c5DoneRecord : Task Nat :=
  { c5RunningRecord with status := .completed, completed_at := some 2, result := some 5, progress := 100 }

theorem task_result_error_invariant_witness :
    ((c5DoneRecord.status = .failed → c5DoneRecord.error ≠ none ∧ c5DoneRecord.result = none) ∧
     (c5DoneRecord.error ≠ none → c5DoneRecord.status = .failed ∨
       (c5DoneRecord.status = .completed ∧ c5DoneRecord.error = some "Task cancelled")) ∧
     (c5DoneRecord.result ≠ none → c5DoneRecord.status = .completed) ∧
     (c5DoneRecord.status = .completed → c5DoneRecord.progress = 100)) ∧
    (dictGet (c5Started.finishRun "t1" (.ok (some 5)) 2).tasks "t1").map
        (fun u => (u.status, u.result, u.progress, u.error)) =
      some (.completed, some 5, 100, none) :=
  ⟨(task_result_error_invariant c5DoneReach "t1" c5DoneRecord (by decide)).1,
    (task_result_error_invariant c5StartedReach "t1" c5RunningRecord
      (by decide)).2 (some 5) 2 (by decide)⟩

def c5NoneDone : TaskManager Nat := c5Started.finishRun "t1" (.ok none) 2

theorem c5NoneDoneReach : TMReachable Nat c5NoneDone :=
  .step c5StartedReach
    (.finished c5Started "t1" (.ok none) 2 c5RunningRecord (by decide)
      (by decide) (by decide))

/-- Orchestrator state after cancel_task succeeded on the running task:
record FAILED with the cancellation error, id still live, wrapper still
suspended inside the work. -/
def c5Cancelled : TaskManager Nat := (c5Started.cancel_task "t1" 2).2

/-- Task record held by c5Cancelled. -/
def c5CancelledRecord : Task Nat :=
  { c5RunningRecord with status := .failed, error := some "Task cancelled", completed_at := some 2 }

theorem c5CancelledReach : TMReachable Nat c5Cancelled :=
  .step c5StartedReach (.cancelled c5Started "t1" 2)

/-- Orchestrator state after the cancelled work swallowed the CancelledError
and returned normally: the wrapper overwrites the record to COMPLETED with a
result and progress 100, leaving the stale cancellation error in place. -/
def c5Swallowed : TaskManager Nat :=
  c5Cancelled.finishRun "t1" (.ok (some 7)) 3

theorem c5SwallowedReach : TMReachable Nat c5Swallowed :=
  .step c5CancelledReach
    (.finished c5Cancelled "t1" (.ok (some 7)) 3 c5CancelledRecord
      (by decide) (by decide) (by decide))

/-- C5 counterexample: two reachable states refute "result present iff
COMPLETED and error present iff FAILED".  First, a COMPLETED task whose work
returned None has an absent result.  Second, a RUNNING task that was
cancelled and whose work swallowed the CancelledError ends COMPLETED while
still carrying error "Task cancelled" — an error on a non-FAILED record. -/
theorem completed_without_result_counterexample :
    (TMReachable Nat c5NoneDone ∧
      (dictGet c5NoneDone.tasks "t1").map
          (fun t => (t.status, t.result, t.error)) =
        some (.completed, none, none)) ∧
    (TMReachable Nat c5Swallowed ∧
      (dictGet c5Swallowed.tasks "t1").map
          (fun t => (t.status, t.result, t.error)) =
        some (.completed, some 7, some "Task cancelled")) :=
  ⟨⟨c5NoneDoneReach, by decide⟩, ⟨c5SwallowedReach, by decide⟩⟩

/-- C6 (amended): when the work of a RUNNING task raises, the run wrapper
converts the exception into the record instead of propagating it: the task
becomes FAILED with error = str(e) — non-empty exactly when the exception
message is non-empty — result stays absent, completed_at is set, and the id
leaves the live mapping. -/
theorem failure_path_spec {m : TaskManager V} (hm : TMReachable V m)
    (task_id : String) (t : Task V) (ht : dictGet m.tasks task_id = some t)
    (hrun : t.status = .running) (e : String) (now : Nat) :
    (dictGet (m.finishRun task_id (.error e) now).tasks task_id).map
        (fun u => (u.status, u.error, u.result, u.completed_at)) =
      some (.failed, some e, none, some now) ∧
    task_id ∉ (m.finishRun task_id (.error e) now).running_tasks := by
  have hok := (reachable_task_fields hm task_id t ht).1
  have hres : t.result = none := (hok.2.2.2.2 (Or.inr hrun)).2
  have hnd := (reachable_wf hm).2
  constructor
  · rw [finishRun_error_eq ht e now]
    simp [dictGet_dictSet_self, hres]
  · rw [finishRun_error_eq ht e now]
    intro hmem
    exact absurd ((List.Nodup.mem_erase_iff hnd).1 hmem).1 (by simp)

theorem failure_path_spec_witness :
    (dictGet (c5Started.finishRun "t1" (.error "boom") 2).tasks "t1").map
        (fun u => (u.status, u.error, u.result, u.completed_at)) =
      some (.failed, some "boom", none, some 2) ∧
    "t1" ∉ (c5Started.finishRun "t1" (.error "boom") 2).running_tasks :=
  failure_path_spec c5StartedReach "t1" c5RunningRecord (by decide)
    (by decide) "boom" 2

def c6EmptyErr : TaskManager Nat := c5Started.finishRun "t1" (.error "") 2

theorem c6EmptyErrReach : TMReachable Nat c6EmptyErr :=
  .step c5StartedReach
    (.finished c5Started "t1" (.error "") 2 c5RunningRecord (by decide)
      (by decide) (by decide))

/-- C6 counterexample: a work function raising an exception whose str() is
the empty string — e.g. raise Exception() — produces a reachable FAILED task
whose stored error is the empty string, refuting the claim that the error is
always a non-empty description. -/
theorem empty_error_message_counterexample :
    TMReachable Nat c6EmptyErr ∧
    (dictGet c6EmptyErr.tasks "t1").map (fun u => (u.status, u.error)) =
      some (.failed, some "") ∧
    ("" : String).length = 0 :=
  ⟨c6EmptyErrReach, by decide, rfl⟩

end RfpAutomation
